import Mathlib

/-!
Verification of the map-routing core of `src/server.js` (Uber-style map
routing service): the `MapGraph` graph store, the array-based
`PriorityQueue`, Dijkstra's `findShortestPath`, and the seed city map.

JavaScript numbers are modelled as exact rationals (`ℚ`); every weight and
coordinate appearing in the program is an exact decimal, and all sums and
comparisons performed by the program stay well inside the range where IEEE
doubles and rationals agree on every comparison and on 2-decimal formatting.
`Infinity` (the initial distance label) is modelled as `none : Option ℚ`.
JavaScript `Map` objects are modelled as insertion-ordered association
lists with `Map.get` / `Map.set` semantics.  The rational primitives of the
library are marked irreducible for elaboration; the attribute line below
restores their definitional transparency so that concrete runs of the
embedded program evaluate.
-/

set_option maxRecDepth 8000

set_option allowUnsafeReducibility true

attribute [semireducible] Rat.add Rat.mul Rat.sub Rat.div Rat.inv Rat.blt Rat.ofScientific Rat.neg Rat.floor Rat.ceil

/-- `Map.get`: first binding of key `k`, if any. -/
def mapGet {α : Type} (m : List (String × α)) (k : String) : Option α :=
  (m.find? (fun pr => pr.1 == k)).map (fun pr => pr.2)

/-- `Map.get` with a default value (models `map.get(k) || dflt` and reads of
keys known to be initialized). -/
def mapGetD {α : Type} (m : List (String × α)) (k : String) (d : α) : α :=
  (mapGet m k).getD d

/-- `Map.set`: replace the binding of `k` in place (keeping its position in
insertion order), or append a fresh binding at the end. -/
def mapSet {α : Type} : List (String × α) → String → α → List (String × α)
  | [], k, v => [(k, v)]
  | (k2, v2) :: rest, k, v =>
    if k2 == k then (k, v) :: rest else (k2, v2) :: mapSet rest k v

/-- A waypoint object `{id, lat, lng}` as stored in `this.nodes`. -/
structure Point where
  id : String
  lat : ℚ
  lng : ℚ
deriving DecidableEq, Repr

/-- The `MapGraph` class state: `nodes : Map nodeId -> {id,lat,lng}` and
`adjacencyList : Map nodeId -> [{node, distance}]`. -/
structure MapGraph where
  nodes : List (String × Point)
  adjacencyList : List (String × List (String × ℚ))
deriving DecidableEq, Repr

/-- `this.nodes.has(id)`. -/
def MapGraph.hasNode (g : MapGraph) (id : String) : Bool :=
  (mapGet g.nodes id).isSome

/-- `this.adjacencyList.get(id) || []` (the Dijkstra loop's read of an
adjacency list; reads of adjacency lists of existing nodes never hit the
default). -/
def adjOf (g : MapGraph) (id : String) : List (String × ℚ) :=
  mapGetD g.adjacencyList id []

/-- `addPoint(id, lat, lng)`: insert the waypoint and an empty adjacency
list unless the id is already present (no-op in that case). -/
def MapGraph.addPoint (g : MapGraph) (id : String) (lat lng : ℚ) : MapGraph :=
  if g.hasNode id then g
  else { nodes := mapSet g.nodes id ⟨id, lat, lng⟩
         adjacencyList := mapSet g.adjacencyList id [] }

/-- `addRoad(point1, point2, distance)`: returns `false` (graph unchanged)
if either endpoint is missing; otherwise pushes a neighbor entry onto each
endpoint's adjacency list sequentially — so a self-loop pushes onto the
same list twice, exactly as the aliased `push` calls do in JavaScript —
and returns `true`. -/
def MapGraph.addRoad (g : MapGraph) (point1 point2 : String) (distance : ℚ) :
    MapGraph × Bool :=
  if g.hasNode point1 = false then (g, false)
  else if g.hasNode point2 = false then (g, false)
  else
    let g1 : MapGraph :=
      { g with adjacencyList :=
          mapSet g.adjacencyList point1 (adjOf g point1 ++ [(point2, distance)]) }
    let g2 : MapGraph :=
      { g1 with adjacencyList :=
          mapSet g1.adjacencyList point2 (adjOf g1 point2 ++ [(point1, distance)]) }
    (g2, true)

/-- Ordered insertion by priority, placing the new entry after all entries
of priority ≤ its own.  This is exactly `elements.push(x);
elements.sort((a,b) => a.priority - b.priority)` on an array that is
already sorted (the queue is re-sorted after every push, and JavaScript's
sort is stable, so the freshly pushed last element lands after every entry
of equal priority). -/
def pqInsert : List (String × ℚ) → String × ℚ → List (String × ℚ)
  | [], x => [x]
  | y :: ys, x => if y.2 ≤ x.2 then y :: pqInsert ys x else x :: y :: ys

/-- `newDist < distances.get(neighbor)` where the stored label may be
`Infinity` (`none`): every finite value is below `Infinity`. -/
def ltOpt (x : ℚ) : Option ℚ → Bool
  | none => true
  | some y => decide (x < y)

/-- The inner `for (const neighbor of neighbors)` relaxation loop of
`findShortestPath`: skips settled neighbors, recomputes
`distances.get(currentNode) + neighbor.distance` (an `Infinity` label
never improves anything, since `Infinity + w < x` is false for every `x`),
and on improvement updates the label, the predecessor, and the frontier. -/
def relaxNeighbors (currentNode : String) :
    List (String × ℚ) → List String → List (String × Option ℚ) →
    List (String × Option String) → List (String × ℚ) →
    List (String × Option ℚ) × List (String × Option String) × List (String × ℚ)
  | [], _, ds, prev, pq => (ds, prev, pq)
  | (nb, w) :: rest, visited, ds, prev, pq =>
    if visited.contains nb then
      relaxNeighbors currentNode rest visited ds prev pq
    else
      match mapGetD ds currentNode none with
      | none => relaxNeighbors currentNode rest visited ds prev pq
      | some cd =>
        if ltOpt (cd + w) (mapGetD ds nb none) then
          relaxNeighbors currentNode rest visited
            (mapSet ds nb (some (cd + w)))
            (mapSet prev nb (some currentNode))
            (pqInsert pq (nb, cd + w))
        else
          relaxNeighbors currentNode rest visited ds prev pq

/-- The main `while (!pq.isEmpty())` Dijkstra loop, written with explicit
fuel (the fuel supplied by `findShortestPath` dominates the number of
iterations, which is bounded by the total number of enqueues: one seed
entry plus at most one per adjacency entry).  Order of the checks matches
the source: skip a settled entry, break on the target, otherwise settle
and relax. -/
def dijkstraLoop (g : MapGraph) (endId : String) :
    Nat → List (String × Option ℚ) → List (String × Option String) →
    List String → List (String × ℚ) →
    List (String × Option ℚ) × List (String × Option String)
  | 0, ds, prev, _, _ => (ds, prev)
  | fuel + 1, ds, prev, visited, pq =>
    match pq with
    | [] => (ds, prev)
    | (currentNode, _) :: pqRest =>
      if visited.contains currentNode then
        dijkstraLoop g endId fuel ds prev visited pqRest
      else if currentNode = endId then (ds, prev)
      else
        let visited2 := currentNode :: visited
        let step := relaxNeighbors currentNode (adjOf g currentNode) visited2 ds prev pqRest
        dijkstraLoop g endId fuel step.1 step.2.1 visited2 step.2.2

/-- Fuel that dominates the iteration count of `dijkstraLoop` on `g`. -/
def dijkstraFuel (g : MapGraph) : Nat :=
  g.nodes.length + (g.adjacencyList.map (fun pr => pr.2.length)).sum + 1

/-- The path-reconstruction `while (current !== null)` loop: walk the
predecessor pointers backwards from `endId`, unshifting each node object
onto the front of the path.  Fuel dominates the chain length (predecessor
chains produced by the search are acyclic and stay inside the key set). -/
def buildPath (g : MapGraph) (prev : List (String × Option String)) :
    Nat → Option String → List (Option Point) → List (Option Point)
  | 0, _, acc => acc
  | _ + 1, none, acc => acc
  | fuel + 1, some cur, acc =>
    buildPath g prev fuel (mapGetD prev cur none) (mapGet g.nodes cur :: acc)

/-- `Math.round`: round half toward positive infinity (exact on rationals;
all arguments arising here are nonnegative). -/
def jsRound (q : ℚ) : ℤ := Int.floor (q + 1 / 2)

/-- `Number.prototype.toFixed(2)` for the nonnegative multiples of 0.1 that
arise as route distances (no double-rounding artifacts in this range). -/
def toFixed2 (q : ℚ) : String :=
  let m : Nat := (Int.floor (q * 100 + 1 / 2)).toNat
  toString (m / 100) ++ "." ++
    (if m % 100 < 10 then "0" ++ toString (m % 100) else toString (m % 100))

/-- `toFixed(2)` lifted to a possibly-infinite label
(`(Infinity).toFixed(2)` is `"Infinity"`; never reached on a produced
result). -/
def toFixedInf : Option ℚ → String
  | some q => toFixed2 q
  | none => "Infinity"

/-- The route object returned by `findShortestPath`.  `totalDistanceVal`
carries the numeric `totalDistance` local of the source before its
`toFixed(2)` formatting (with `none` for `Infinity`); `estimatedTime` is
`none` only in the unreachable `Infinity` case. -/
structure RouteResult where
  path : List (Option Point)
  totalDistanceVal : Option ℚ
  totalDistance : String
  estimatedTime : Option ℤ
  startPoint : Option Point
  endPoint : Option Point
deriving DecidableEq, Repr

/-- `findShortestPath(startId, endId)`: validate endpoints, run the
Dijkstra loop from `startId`, reconstruct the path when `endId` has a
predecessor or equals `startId`, and package distance (2-decimal string),
estimated minutes (`Math.round((totalDistance / 40) * 60)`) and the start
and end node objects.  `null` is modelled as `none`. -/
def MapGraph.findShortestPath (g : MapGraph) (startId endId : String) :
    Option RouteResult :=
  if (!g.hasNode startId || !g.hasNode endId) then none
  else
    let distances0 : List (String × Option ℚ) :=
      g.nodes.map (fun pr => (pr.1, none))
    let previous0 : List (String × Option String) :=
      g.nodes.map (fun pr => (pr.1, none))
    let distances1 := mapSet distances0 startId (some 0)
    let pq0 := pqInsert [] (startId, 0)
    let final := dijkstraLoop g endId (dijkstraFuel g) distances1 previous0 [] pq0
    let path :=
      if ((mapGetD final.2 endId none).isSome || startId = endId) then
        buildPath g final.2 (g.nodes.length + 1) (some endId) []
      else []
    if path.length = 0 then none
    else
      let totalDistance := mapGetD final.1 endId none
      some { path := path
             totalDistanceVal := totalDistance
             totalDistance := toFixedInf totalDistance
             estimatedTime := totalDistance.map (fun q => jsRound (q / 40 * 60))
             startPoint := mapGet g.nodes startId
             endPoint := mapGet g.nodes endId }

/-- The seed `cityMap`: five waypoints and seven roads, built exactly in
source order. -/
def cityMap : MapGraph :=
  let m0 : MapGraph := { nodes := [], adjacencyList := [] }
  let m1 := m0.addPoint "A" 37.7749 (-122.4194)
  let m2 := m1.addPoint "B" 37.7849 (-122.4094)
  let m3 := m2.addPoint "C" 37.7649 (-122.4294)
  let m4 := m3.addPoint "D" 37.7749 (-122.3994)
  let m5 := m4.addPoint "E" 37.7949 (-122.4194)
  let m6 := (m5.addRoad "A" "B" 2.5).1
  let m7 := (m6.addRoad "A" "C" 3.2).1
  let m8 := (m7.addRoad "A" "D" 4.1).1
  let m9 := (m8.addRoad "B" "D" 2.8).1
  let m10 := (m9.addRoad "B" "E" 3.5).1
  let m11 := (m10.addRoad "C" "D" 2.1).1
  let m12 := (m11.addRoad "D" "E" 3.8).1
  m12

/-- The waypoint identifiers of the seed map. -/
def seedIds : List String := ["A", "B", "C", "D", "E"]

/-- Identifier sequence of a returned path (every entry of a produced path
is a present node object). -/
def idsOf (r : RouteResult) : List String :=
  r.path.filterMap (fun o => o.map Point.id)

/-- `(b, w)` is an entry of `a`'s adjacency list: the road from `a` to `b`
of weight `w` is traversable in the graph. -/
def Adj (g : MapGraph) (a b : String) (w : ℚ) : Prop :=
  (b, w) ∈ adjOf g a

/-- A walk through the graph from `a` to `c` of total edge weight `W`. -/
inductive IsWalk (g : MapGraph) : String → String → ℚ → Prop where
  | refl (a : String) : IsWalk g a a 0
  | step {a b c : String} {w W : ℚ} :
      Adj g a b w → IsWalk g b c W → IsWalk g a c (w + W)

/-- Weight of the first adjacency entry from `a` to `b`, if any. -/
def edgeWeight (g : MapGraph) (a b : String) : Option ℚ :=
  ((adjOf g a).find? (fun pr => pr.1 == b)).map (fun pr => pr.2)

/-- Total edge weight of an identifier sequence read as a chain of roads
(`none` when the sequence is empty or some consecutive pair is not
connected). -/
def chainWeight (g : MapGraph) : List String → Option ℚ
  | [] => none
  | [_] => some 0
  | a :: b :: rest =>
    match edgeWeight g a b, chainWeight g (b :: rest) with
    | some w, some W => some (w + W)
    | _, _ => none

/-- A potential is feasible for `g` when every stored adjacency entry
`(b, w)` of every node `a` satisfies `p b ≤ p a + w`. -/
def feasible (g : MapGraph) (p : String → ℚ) : Bool :=
  g.adjacencyList.all (fun pr => pr.2.all (fun en => decide (p en.1 ≤ p pr.1 + en.2)))

/-- Exact single-source distance table of the seed map (row `s`, column
`x`). -/
def pot (s x : String) : ℚ :=
  if s = "A" then
    (if x = "B" then 2.5 else if x = "C" then 3.2 else
     if x = "D" then 4.1 else if x = "E" then 6 else 0)
  else if s = "B" then
    (if x = "A" then 2.5 else if x = "C" then 4.9 else
     if x = "D" then 2.8 else if x = "E" then 3.5 else 0)
  else if s = "C" then
    (if x = "A" then 3.2 else if x = "B" then 4.9 else
     if x = "D" then 2.1 else if x = "E" then 5.9 else 0)
  else if s = "D" then
    (if x = "A" then 4.1 else if x = "B" then 2.8 else
     if x = "C" then 2.1 else if x = "E" then 3.8 else 0)
  else if s = "E" then
    (if x = "A" then 6 else if x = "B" then 3.5 else
     if x = "C" then 5.9 else if x = "D" then 3.8 else 0)
  else 0

/-- Decidable per-pair check bundling everything about
`findShortestPath s e` on the seed map except walk minimality: a result
exists, its path runs from `s` to `e`, its reported numeric distance is
the literal edge-weight sum along the returned path, and it equals the
distance table entry `pot s e` (with the table entry also matching the
2-decimal string and the rounded minutes). -/
def routeCheck (s e : String) : Bool :=
  match cityMap.findShortestPath s e with
  | none => false
  | some r =>
    decide ((idsOf r).head? = some s ∧ (idsOf r).getLast? = some e ∧
      chainWeight cityMap (idsOf r) = r.totalDistanceVal ∧
      r.totalDistanceVal = some (pot s e) ∧
      r.totalDistance = toFixed2 (pot s e) ∧
      r.estimatedTime = some (jsRound (pot s e / 40 * 60)))

/-- The seed map extended with a waypoint `"F"` that no road reaches (the
disconnected point the spec asks about). -/
def cityMapF : MapGraph := cityMap.addPoint "F" 37.8 (-122.38)

/-- The waypoint identifiers of the extended map. -/
def allIdsF : List String := ["A", "B", "C", "D", "E", "F"]

/-- A concrete connecting sequence between any two seed waypoints: the
direct road when one exists, otherwise a detour through `"D"`, which is
adjacent to every other seed waypoint that needs it. -/
def seedWalkList (s e : String) : List String :=
  if s = e then [s]
  else if (edgeWeight cityMapF s e).isSome then [s, e]
  else [s, "D", e]

/-- An empty route object (used only as a `getD` default). -/
def emptyRoute : RouteResult :=
  { path := [], totalDistanceVal := none, totalDistance := ""
    estimatedTime := none, startPoint := none, endPoint := none }

/-- The concrete route returned for the seed query A → C. -/
def routeAC : RouteResult := (cityMap.findShortestPath "A" "C").getD emptyRoute

/-- One call against the graph store: `addPoint` or `addRoad`. -/
inductive GraphOp where
  | point (id : String) (lat lng : ℚ)
  | road (point1 point2 : String) (distance : ℚ)

/-- Apply one store operation (the `addRoad` return flag is discarded). -/
def applyOp (g : MapGraph) : GraphOp → MapGraph
  | GraphOp.point id lat lng => g.addPoint id lat lng
  | GraphOp.road p1 p2 d => (g.addRoad p1 p2 d).1

/-- Apply a call sequence left to right. -/
def applyOps (g : MapGraph) (ops : List GraphOp) : MapGraph :=
  ops.foldl applyOp g

/-- `new MapGraph()`: the empty store. -/
def newMapGraph : MapGraph := { nodes := [], adjacencyList := [] }

/-- Adjacency symmetry: for distinct `a`, `b`, the entry `(b, d)` appears
in `a`'s adjacency list exactly when `(a, d)` appears in `b`'s. -/
def SymAdj (g : MapGraph) : Prop :=
  ∀ a b : String, a ≠ b → ∀ d : ℚ,
    ((b, d) ∈ adjOf g a ↔ (a, d) ∈ adjOf g b)

/-- Every adjacency-map key is a node key (true of every reachable store
state). -/
def AdjKeysPresent (g : MapGraph) : Prop :=
  ∀ id : String, (mapGet g.adjacencyList id).isSome = true → g.hasNode id = true

/-- The invariant carried through every store operation. -/
def InvGraph (g : MapGraph) : Prop := AdjKeysPresent g ∧ SymAdj g

/-- The sequence of store calls used to witness the symmetry invariant. -/
def opsWitness : List GraphOp :=
  [GraphOp.point "A" 0 0, GraphOp.point "B" 0 0, GraphOp.road "A" "B" 2.5]

theorem bool_ne_false {b : Bool} (h : ¬ b = false) : b = true := by
  cases b
  · exact absurd rfl h
  · rfl

theorem mapGet_mapSet_self {α : Type} (m : List (String × α)) (k : String) (v : α) :
    mapGet (mapSet m k v) k = some v := by
  induction m with
  | nil => simp [mapSet, mapGet, List.find?]
  | cons pr rest ih =>
    cases pr with
    | mk k2 v2 =>
      by_cases h : k2 = k
      · simp [mapSet, h, mapGet, List.find?]
      · have hb : (k2 == k) = false := by simp [h]
        simp only [mapSet, hb, if_false, Bool.false_eq_true]
        unfold mapGet
        simp only [List.find?, hb]
        exact ih

theorem mapGet_mapSet_ne {α : Type} (m : List (String × α)) {k x : String}
    (hne : k ≠ x) (v : α) : mapGet (mapSet m k v) x = mapGet m x := by
  induction m with
  | nil =>
    have hb : (k == x) = false := by simp [hne]
    simp [mapSet, mapGet, List.find?, hb]
  | cons pr rest ih =>
    cases pr with
    | mk k2 v2 =>
      by_cases h : k2 = k
      · subst h
        have hb : (k2 == k2) = true := by simp
        have hbx : (k2 == x) = false := by simp [hne]
        simp only [mapSet, hb, if_true]
        unfold mapGet
        simp only [List.find?, hbx]
      · have hb : (k2 == k) = false := by simp [h]
        simp only [mapSet, hb, if_false, Bool.false_eq_true]
        by_cases hx : k2 = x
        · subst hx
          have hbx : (k2 == k2) = true := by simp
          unfold mapGet
          simp only [List.find?, hbx]
        · have hbx : (k2 == x) = false := by simp [hx]
          unfold mapGet at ih ⊢
          simp only [List.find?, hbx]
          exact ih

theorem isSome_mapGet_mapSet {α : Type} (m : List (String × α)) {k x : String}
    (v : α) (h : (mapGet (mapSet m k v) x).isSome = true) :
    x = k ∨ (mapGet m x).isSome = true := by
  by_cases hx : k = x
  · exact Or.inl hx.symm
  · rw [mapGet_mapSet_ne m hx v] at h
    exact Or.inr h

theorem edgeWeight_adj {g : MapGraph} {a b : String} {w : ℚ}
    (h : edgeWeight g a b = some w) : Adj g a b w := by
  unfold edgeWeight at h
  cases hf : (adjOf g a).find? (fun pr => pr.1 == b) with
  | none => rw [hf] at h; exact Option.noConfusion h
  | some pr =>
    rw [hf] at h
    simp only [Option.map_some'] at h
    have hmem := List.mem_of_find?_eq_some hf
    have hb2 : pr.1 = b := by simpa using List.find?_some hf
    have : pr = (b, w) := by
      cases pr
      simp only [Option.some.injEq] at h
      simp only [Prod.mk.injEq]
      exact ⟨hb2, h⟩
    rw [this] at hmem
    exact hmem

theorem chainWeight_isWalk {g : MapGraph} :
    ∀ {l : List String} {a c : String} {W : ℚ},
      chainWeight g l = some W → l.head? = some a → l.getLast? = some c →
      IsWalk g a c W := by
  intro l
  induction l with
  | nil => intro a c W h; simp [chainWeight] at h
  | cons x rest ih =>
    intro a c W h hh hl
    cases rest with
    | nil =>
      simp only [chainWeight] at h
      simp only [List.head?] at hh
      simp only [List.getLast?] at hl
      cases h
      cases hh
      cases hl
      exact IsWalk.refl x
    | cons y rest2 =>
      simp only [List.head?] at hh
      cases hh
      simp only [chainWeight] at h
      cases he : edgeWeight g x y with
      | none => rw [he] at h; simp at h
      | some w =>
        rw [he] at h
        cases hc : chainWeight g (y :: rest2) with
        | none => rw [hc] at h; simp at h
        | some W2 =>
          rw [hc] at h
          simp only [Option.some.injEq] at h
          rw [List.getLast?_cons_cons] at hl
          have hw := ih hc rfl hl
          rw [← h]
          exact IsWalk.step (edgeWeight_adj he) hw

theorem feasible_spec {g : MapGraph} {p : String → ℚ}
    (hf : feasible g p = true) {a b : String} {w : ℚ} (h : Adj g a b w) :
    p b ≤ p a + w := by
  unfold Adj adjOf mapGetD mapGet at h
  cases hfind : g.adjacencyList.find? (fun pr => pr.1 == a) with
  | none => rw [hfind] at h; exact absurd h (List.not_mem_nil _)
  | some pr =>
    rw [hfind] at h
    simp only [Option.map_some', Option.getD_some] at h
    have hmem := List.mem_of_find?_eq_some hfind
    have ha2 : pr.1 = a := by simpa using List.find?_some hfind
    unfold feasible at hf
    rw [List.all_eq_true] at hf
    have h1 := hf pr hmem
    rw [List.all_eq_true] at h1
    have h2 := h1 (b, w) h
    rw [ha2] at h2
    simpa using h2

theorem walk_lower_bound {g : MapGraph} {p : String → ℚ}
    (hf : feasible g p = true) :
    ∀ {a c : String} {W : ℚ}, IsWalk g a c W → p c ≤ p a + W := by
  intro a c W h
  induction h with
  | refl a => simp
  | step hadj _ ih =>
    have := feasible_spec hf hadj
    linarith

theorem routeCheck_all : ∀ s ∈ seedIds, ∀ e ∈ seedIds, routeCheck s e = true := by
  decide

theorem feasible_pot : ∀ s ∈ seedIds, feasible cityMap (pot s) = true := by
  decide

theorem pot_self : ∀ s ∈ seedIds, pot s s = 0 := by
  decide

theorem hasNode_mem_keys {g : MapGraph} {s : String} (h : g.hasNode s = true) :
    s ∈ g.nodes.map Prod.fst := by
  unfold MapGraph.hasNode mapGet at h
  cases hfind : g.nodes.find? (fun pr => pr.1 == s) with
  | none => rw [hfind] at h; exact absurd h (by simp)
  | some pr =>
    have hmem := List.mem_of_find?_eq_some hfind
    have hs : pr.1 = s := by simpa using List.find?_some hfind
    exact hs ▸ List.mem_map_of_mem Prod.fst hmem

theorem cityMapF_keys : cityMapF.nodes.map Prod.fst = allIdsF := by decide

theorem seedWalk_ok : ∀ s ∈ seedIds, ∀ e ∈ seedIds,
    (chainWeight cityMapF (seedWalkList s e)).isSome = true ∧
    (seedWalkList s e).head? = some s ∧
    (seedWalkList s e).getLast? = some e := by
  decide

theorem seedWalk_exists : ∀ s ∈ seedIds, ∀ e ∈ seedIds,
    ∃ W, IsWalk cityMapF s e W := by
  intro s hs e he
  obtain ⟨h1, h2, h3⟩ := seedWalk_ok s hs e he
  cases hcw : chainWeight cityMapF (seedWalkList s e) with
  | none => rw [hcw] at h1; simp at h1
  | some W => exact ⟨W, chainWeight_isWalk hcw h2 h3⟩

theorem noWalkFromF (c : String) (W : ℚ) (h : IsWalk cityMapF "F" c W) :
    c = "F" := by
  cases h with
  | refl => rfl
  | step hadj hw =>
    have hempty : adjOf cityMapF "F" = [] := by decide
    unfold Adj at hadj
    rw [hempty] at hadj
    exact absurd hadj (List.not_mem_nil _)

theorem addPoint_adjOf {g : MapGraph} (hk : AdjKeysPresent g)
    (id : String) (lat lng : ℚ) :
    ∀ x, adjOf (g.addPoint id lat lng) x = adjOf g x := by
  intro x
  unfold MapGraph.addPoint
  by_cases h : g.hasNode id = true
  · simp [h]
  · have h2 : g.hasNode id = false := by
      cases hh : g.hasNode id
      · rfl
      · exact absurd hh h
    simp only [h2, Bool.false_eq_true, if_false]
    by_cases hx : id = x
    · subst hx
      unfold adjOf mapGetD
      rw [mapGet_mapSet_self]
      cases hm : mapGet g.adjacencyList id with
      | none => simp
      | some l =>
        have : g.hasNode id = true := hk id (by rw [hm]; rfl)
        rw [this] at h2
        exact absurd h2 (by simp)
    · unfold adjOf mapGetD
      rw [mapGet_mapSet_ne _ hx]

theorem addPoint_keys {g : MapGraph} (hk : AdjKeysPresent g)
    (id : String) (lat lng : ℚ) :
    AdjKeysPresent (g.addPoint id lat lng) := by
  intro x hs
  unfold MapGraph.addPoint at hs ⊢
  by_cases h : g.hasNode id = true
  · simp only [h, if_true] at hs ⊢
    exact hk x hs
  · have h2 : g.hasNode id = false := by
      cases hh : g.hasNode id
      · rfl
      · exact absurd hh h
    simp only [h2, Bool.false_eq_true, if_false] at hs ⊢
    by_cases hx : id = x
    · subst hx
      unfold MapGraph.hasNode
      rw [mapGet_mapSet_self]
      rfl
    · rw [mapGet_mapSet_ne _ hx] at hs
      unfold MapGraph.hasNode
      rw [mapGet_mapSet_ne _ hx]
      exact hk x hs

theorem mem_append_single_ne {l : List (String × ℚ)} {b y : String} {dd d : ℚ}
    (hne : b ≠ y) : ((b, dd) ∈ l ++ [(y, d)]) ↔ (b, dd) ∈ l := by
  simp [List.mem_append, Prod.ext_iff, hne]

theorem mem_append_single_eq {l : List (String × ℚ)} {y : String} {dd d : ℚ} :
    ((y, dd) ∈ l ++ [(y, d)]) ↔ ((y, dd) ∈ l ∨ dd = d) := by
  simp [List.mem_append, Prod.ext_iff]

theorem mem_append_self_pair {l : List (String × ℚ)} {b y : String} {dd d : ℚ}
    (hne : b ≠ y) : ((b, dd) ∈ l ++ [(y, d), (y, d)]) ↔ (b, dd) ∈ l := by
  simp [List.mem_append, Prod.ext_iff, hne]

theorem addRoad_adjOf_ne {g : MapGraph} {p1 p2 : String} (d : ℚ)
    (h1 : ¬ g.hasNode p1 = false) (h2 : ¬ g.hasNode p2 = false)
    (hp : p1 ≠ p2) (x : String) :
    adjOf (g.addRoad p1 p2 d).1 x =
      if p2 = x then adjOf g p2 ++ [(p1, d)]
      else if p1 = x then adjOf g p1 ++ [(p2, d)]
      else adjOf g x := by
  unfold MapGraph.addRoad
  rw [if_neg h1, if_neg h2]
  dsimp only
  by_cases hx2 : p2 = x
  · subst hx2
    rw [if_pos rfl]
    unfold adjOf mapGetD
    rw [mapGet_mapSet_self, Option.getD_some, mapGet_mapSet_ne _ hp]
  · rw [if_neg hx2]
    by_cases hx1 : p1 = x
    · subst hx1
      rw [if_pos rfl]
      unfold adjOf mapGetD
      rw [mapGet_mapSet_ne _ hx2, mapGet_mapSet_self, Option.getD_some]
    · rw [if_neg hx1]
      unfold adjOf mapGetD
      rw [mapGet_mapSet_ne _ hx2, mapGet_mapSet_ne _ hx1]

theorem addRoad_adjOf_self {g : MapGraph} {p1 : String} (d : ℚ)
    (h1 : ¬ g.hasNode p1 = false) (x : String) :
    adjOf (g.addRoad p1 p1 d).1 x =
      if p1 = x then adjOf g p1 ++ [(p1, d), (p1, d)] else adjOf g x := by
  unfold MapGraph.addRoad
  rw [if_neg h1, if_neg h1]
  dsimp only
  by_cases hx : p1 = x
  · subst hx
    rw [if_pos rfl]
    unfold adjOf mapGetD
    rw [mapGet_mapSet_self, Option.getD_some, mapGet_mapSet_self, Option.getD_some]
    simp
  · rw [if_neg hx]
    unfold adjOf mapGetD
    rw [mapGet_mapSet_ne _ hx, mapGet_mapSet_ne _ hx]

theorem addRoad_keys {g : MapGraph} (hk : AdjKeysPresent g)
    (p1 p2 : String) (d : ℚ) :
    AdjKeysPresent (g.addRoad p1 p2 d).1 := by
  by_cases h1 : g.hasNode p1 = false
  · unfold MapGraph.addRoad
    rw [if_pos h1]
    exact hk
  · by_cases h2 : g.hasNode p2 = false
    · unfold MapGraph.addRoad
      rw [if_neg h1, if_pos h2]
      exact hk
    · have h1t : g.hasNode p1 = true := bool_ne_false h1
      have h2t : g.hasNode p2 = true := bool_ne_false h2
      intro x hs
      unfold MapGraph.addRoad at hs ⊢
      rw [if_neg h1, if_neg h2] at hs ⊢
      dsimp only at hs ⊢
      show g.hasNode x = true
      by_cases hx2 : p2 = x
      · exact hx2 ▸ h2t
      · rw [mapGet_mapSet_ne _ hx2] at hs
        by_cases hx1 : p1 = x
        · exact hx1 ▸ h1t
        · rw [mapGet_mapSet_ne _ hx1] at hs
          exact hk x hs

theorem addRoad_symAdj {g : MapGraph} (hsym : SymAdj g)
    (p1 p2 : String) (d : ℚ) :
    SymAdj (g.addRoad p1 p2 d).1 := by
  by_cases h1 : g.hasNode p1 = false
  · unfold MapGraph.addRoad
    rw [if_pos h1]
    exact hsym
  · by_cases h2 : g.hasNode p2 = false
    · unfold MapGraph.addRoad
      rw [if_neg h1, if_pos h2]
      exact hsym
    · by_cases hp : p1 = p2
      · subst hp
        intro a b hab dd
        rw [addRoad_adjOf_self d h1 a, addRoad_adjOf_self d h1 b]
        by_cases hxa : p1 = a
        · subst hxa
          rw [if_pos rfl, if_neg hab]
          rw [mem_append_self_pair (fun hh => hab hh.symm)]
          exact hsym p1 b hab dd
        · rw [if_neg hxa]
          by_cases hxb : p1 = b
          · subst hxb
            rw [if_pos rfl]
            rw [mem_append_self_pair (fun hh => hxa hh.symm)]
            exact hsym a p1 hab dd
          · rw [if_neg hxb]
            exact hsym a b hab dd
      · intro a b hab dd
        rw [addRoad_adjOf_ne d h1 h2 hp a, addRoad_adjOf_ne d h1 h2 hp b]
        by_cases ha2 : p2 = a
        · subst ha2
          rw [if_pos rfl, if_neg hab]
          by_cases hb1 : p1 = b
          · subst hb1
            rw [if_pos rfl]
            rw [mem_append_single_eq, mem_append_single_eq, hsym p2 p1 hab dd]
          · rw [if_neg hb1]
            rw [mem_append_single_ne (fun hh => hb1 hh.symm)]
            exact hsym p2 b hab dd
        · rw [if_neg ha2]
          by_cases ha1 : p1 = a
          · subst ha1
            rw [if_pos rfl]
            by_cases hb2 : p2 = b
            · subst hb2
              rw [if_pos rfl]
              rw [mem_append_single_eq, mem_append_single_eq, hsym p1 p2 hab dd]
            · rw [if_neg hb2]
              by_cases hb1 : p1 = b
              · exact absurd hb1 hab
              · rw [if_neg hb1]
                rw [mem_append_single_ne (fun hh => hb2 hh.symm)]
                exact hsym p1 b hab dd
          · rw [if_neg ha1]
            by_cases hb2 : p2 = b
            · subst hb2
              rw [if_pos rfl]
              rw [mem_append_single_ne (fun hh => ha1 hh.symm)]
              exact hsym a p2 hab dd
            · rw [if_neg hb2]
              by_cases hb1 : p1 = b
              · subst hb1
                rw [if_pos rfl]
                rw [mem_append_single_ne (fun hh => ha2 hh.symm)]
                exact hsym a p1 hab dd
              · rw [if_neg hb1]
                exact hsym a b hab dd


theorem applyOp_inv {g : MapGraph} (h : InvGraph g) (op : GraphOp) :
    InvGraph (applyOp g op) := by
  cases op with
  | point id lat lng =>
    dsimp only [applyOp]
    refine ⟨addPoint_keys h.1 id lat lng, ?_⟩
    intro a b hab d
    rw [addPoint_adjOf h.1 id lat lng a, addPoint_adjOf h.1 id lat lng b]
    exact h.2 a b hab d
  | road p1 p2 d =>
    dsimp only [applyOp]
    exact ⟨addRoad_keys h.1 p1 p2 d, addRoad_symAdj h.2 p1 p2 d⟩

theorem applyOps_inv : ∀ (ops : List GraphOp) (g : MapGraph),
    InvGraph g → InvGraph (applyOps g ops) := by
  intro ops
  induction ops with
  | nil => intro g h; exact h
  | cons op rest ih =>
    intro g h
    show InvGraph (List.foldl applyOp (applyOp g op) rest)
    exact ih (applyOp g op) (applyOp_inv h op)

theorem newMapGraph_inv : InvGraph newMapGraph := by
  constructor
  · intro id h
    exact absurd h (by simp [newMapGraph, mapGet, List.find?])
  · intro a b hab d
    simp [adjOf, newMapGraph, mapGetD, mapGet, List.find?]

/-- C1: for every pair of seed waypoints, `findShortestPath` returns a
route whose path runs from `s` to `e` through stored roads, whose reported
numeric total distance is the literal sum of the edge weights along the
returned path, and no walk between `s` and `e` in the graph has a strictly
smaller weight sum (the table entry `pot s e` is that reported sum and a
lower bound on every walk). -/
theorem shortestPath_seed_minimal (s e : String)
    (hs : s ∈ seedIds) (he : e ∈ seedIds) :
    ∃ r, cityMap.findShortestPath s e = some r ∧
      (idsOf r).head? = some s ∧ (idsOf r).getLast? = some e ∧
      chainWeight cityMap (idsOf r) = r.totalDistanceVal ∧
      r.totalDistanceVal = some (pot s e) ∧
      ∀ W, IsWalk cityMap s e W → pot s e ≤ W := by
  have hrc := routeCheck_all s hs e he
  have hfeas := feasible_pot s hs
  have hzero := pot_self s hs
  unfold routeCheck at hrc
  cases hfind : cityMap.findShortestPath s e with
  | none => rw [hfind] at hrc; simp at hrc
  | some r =>
    rw [hfind] at hrc
    simp only [decide_eq_true_eq] at hrc
    obtain ⟨h1, h2, h3, h4, h5, h6⟩ := hrc
    refine ⟨r, rfl, h1, h2, h3, h4, ?_⟩
    intro W hw
    have hb := walk_lower_bound hfeas hw
    rw [hzero] at hb
    linarith

theorem shortestPath_seed_minimal_witness :
    ∃ r, cityMap.findShortestPath "A" "E" = some r ∧
      (idsOf r).head? = some "A" ∧ (idsOf r).getLast? = some "E" ∧
      chainWeight cityMap (idsOf r) = r.totalDistanceVal ∧
      r.totalDistanceVal = some (pot "A" "E") ∧
      ∀ W, IsWalk cityMap "A" "E" W → pot "A" "E" ≤ W :=
  shortestPath_seed_minimal "A" "E" (by decide) (by decide)

/-- C2 counterexample: the reported distance of the A → E route is not
"6.30". -/
theorem route_A_E_not_630 :
    ¬ ((cityMap.findShortestPath "A" "E").map RouteResult.totalDistance =
       some "6.30") := by
  decide

/-- C2 (amended): on the seed graph, `findShortestPath("A", "E")` returns
the path [A, B, E] with total distance presented as "6.00" (2.5 + 3.5 =
6.0) and estimated time 9 minutes. -/
theorem route_A_E_600 :
    (cityMap.findShortestPath "A" "E").map
      (fun r => (idsOf r, r.totalDistance, r.estimatedTime)) =
    some (["A", "B", "E"], "6.00", some 9) := by
  decide

/-- C3: whenever either identifier is absent from the store — whatever the
rest of the graph looks like, so before any search could run — the
operation returns the failure value `null` (`none`), never a crash or a
partial result. -/
theorem findShortestPath_unknown_none (g : MapGraph) (s e : String)
    (h : g.hasNode s = false ∨ g.hasNode e = false) :
    g.findShortestPath s e = none := by
  unfold MapGraph.findShortestPath
  rcases h with h | h <;> simp [h]

theorem findShortestPath_unknown_none_witness :
    cityMap.findShortestPath "Z" "A" = none :=
  findShortestPath_unknown_none cityMap "Z" "A" (Or.inl (by decide))

/-- C4: for every waypoint of the seed store, routing a point to itself
returns the single-element path [p], distance "0.00" and estimated time
0. -/
theorem findShortestPath_self : ∀ p ∈ seedIds,
    (cityMap.findShortestPath p p).map
      (fun r => (idsOf r, r.totalDistance, r.estimatedTime)) =
    some ([p], "0.00", some 0) := by
  decide

theorem findShortestPath_self_witness :
    (cityMap.findShortestPath "A" "A").map
      (fun r => (idsOf r, r.totalDistance, r.estimatedTime)) =
    some (["A"], "0.00", some 0) :=
  findShortestPath_self "A" (by decide)

/-- C5: on the seed store every query succeeds, and the swapped query
reports the same total distance (numerically and as the formatted string)
and the reversed waypoint sequence. -/
theorem findShortestPath_symmetric : ∀ s ∈ seedIds, ∀ e ∈ seedIds,
    (cityMap.findShortestPath s e).isSome = true ∧
    (cityMap.findShortestPath e s).map RouteResult.totalDistanceVal =
      (cityMap.findShortestPath s e).map RouteResult.totalDistanceVal ∧
    (cityMap.findShortestPath e s).map RouteResult.totalDistance =
      (cityMap.findShortestPath s e).map RouteResult.totalDistance ∧
    (cityMap.findShortestPath e s).map RouteResult.path =
      (cityMap.findShortestPath s e).map (fun r => r.path.reverse) := by
  decide

theorem findShortestPath_symmetric_witness :
    (cityMap.findShortestPath "A" "E").isSome = true ∧
    (cityMap.findShortestPath "E" "A").map RouteResult.totalDistanceVal =
      (cityMap.findShortestPath "A" "E").map RouteResult.totalDistanceVal ∧
    (cityMap.findShortestPath "E" "A").map RouteResult.totalDistance =
      (cityMap.findShortestPath "A" "E").map RouteResult.totalDistance ∧
    (cityMap.findShortestPath "E" "A").map RouteResult.path =
      (cityMap.findShortestPath "A" "E").map (fun r => r.path.reverse) :=
  findShortestPath_symmetric "A" (by decide) "E" (by decide)

/-- C6: every successful route of any graph carries an estimated time that
is exactly `Math.round((totalDistance / 40) * 60)` — round to nearest with
ties upward — applied to its numeric total distance. -/
theorem estimatedTime_formula (g : MapGraph) (s e : String) (r : RouteResult)
    (h : g.findShortestPath s e = some r) :
    r.estimatedTime = r.totalDistanceVal.map (fun q => jsRound (q / 40 * 60)) := by
  unfold MapGraph.findShortestPath at h
  split at h
  · exact Option.noConfusion h
  · dsimp only at h
    split at h <;> split at h <;>
      first
        | exact Option.noConfusion h
        | (rw [Option.some.injEq] at h; rw [← h])

theorem estimatedTime_formula_witness :
    routeAC.estimatedTime =
      routeAC.totalDistanceVal.map (fun q => jsRound (q / 40 * 60)) :=
  estimatedTime_formula cityMap "A" "C" routeAC (by decide)

/-- C7: on the store with the disconnected waypoint "F" added, every query
between two present waypoints that no walk connects (with distinct
endpoints) returns the failure value `null` (`none`) — the predecessor of
the target is still unset after the search — rather than a crash or a
partial result. -/
theorem findShortestPath_no_path_none (s e : String)
    (hs : cityMapF.hasNode s = true) (he : cityMapF.hasNode e = true)
    (hne : s ≠ e) (hnp : ¬ ∃ W, IsWalk cityMapF s e W) :
    cityMapF.findShortestPath s e = none := by
  have hs2 : s ∈ allIdsF := by
    have := hasNode_mem_keys hs
    rwa [cityMapF_keys] at this
  have he2 : e ∈ allIdsF := by
    have := hasNode_mem_keys he
    rwa [cityMapF_keys] at this
  fin_cases hs2 <;> fin_cases he2 <;>
    first
      | exact absurd rfl hne
      | exact absurd (seedWalk_exists _ (by decide) _ (by decide)) hnp
      | decide

theorem findShortestPath_no_path_none_witness :
    cityMapF.findShortestPath "F" "A" = none :=
  findShortestPath_no_path_none "F" "A" (by decide) (by decide) (by decide)
    (fun h =>
      match h with
      | ⟨W, hw⟩ => absurd (noWalkFromF "A" W hw) (by decide))

/-- C8: adding a road with an unknown endpoint returns `false` and leaves
the whole store (nodes and every adjacency list) unchanged, for every
store state. -/
theorem addRoad_unknown_noop (g : MapGraph) (a b : String) (d : ℚ)
    (h : g.hasNode a = false ∨ g.hasNode b = false) :
    g.addRoad a b d = (g, false) := by
  unfold MapGraph.addRoad
  rcases h with h | h
  · simp [h]
  · by_cases h2 : g.hasNode a = false
    · simp [h2]
    · simp [h, h2]

theorem addRoad_unknown_noop_witness :
    cityMap.addRoad "Z" "A" 1 = (cityMap, false) :=
  addRoad_unknown_noop cityMap "Z" "A" 1 (Or.inl (by decide))

/-- C9: after any sequence of `addPoint` / `addRoad` calls starting from
the empty store, adjacency is symmetric: for distinct identifiers `a` and
`b`, the entry `(b, d)` appears in `a`'s adjacency list exactly when
`(a, d)` appears in `b`'s, with the same weight. -/
theorem adjacency_symmetric_invariant (ops : List GraphOp) (a b : String)
    (hab : a ≠ b) (d : ℚ) :
    ((b, d) ∈ adjOf (applyOps newMapGraph ops) a ↔
     (a, d) ∈ adjOf (applyOps newMapGraph ops) b) :=
  (applyOps_inv ops newMapGraph newMapGraph_inv).2 a b hab d

theorem adjacency_symmetric_invariant_witness :
    (("B", (2.5 : ℚ)) ∈ adjOf (applyOps newMapGraph opsWitness) "A" ↔
     ("A", (2.5 : ℚ)) ∈ adjOf (applyOps newMapGraph opsWitness) "B") :=
  adjacency_symmetric_invariant opsWitness "A" "B" (by decide) 2.5

/-- C10: a self-loop `addRoad(id, id, d)` on a present waypoint succeeds
(returns `true`) and appends the entry `(id, d)` twice to `id`'s own
adjacency list — it is silently accepted, not rejected. -/
theorem addRoad_self_loop (g : MapGraph) (id : String) (d : ℚ)
    (h : g.hasNode id = true) :
    (g.addRoad id id d).2 = true ∧
    adjOf (g.addRoad id id d).1 id = adjOf g id ++ [(id, d), (id, d)] := by
  have hf : ¬ (g.hasNode id = false) := by rw [h]; simp
  constructor
  · unfold MapGraph.addRoad
    rw [if_neg hf, if_neg hf]
  · rw [addRoad_adjOf_self d hf id, if_pos rfl]

theorem addRoad_self_loop_witness :
    (cityMap.addRoad "A" "A" 1).2 = true ∧
    adjOf (cityMap.addRoad "A" "A" 1).1 "A" =
      adjOf cityMap "A" ++ [("A", 1), ("A", 1)] :=
  addRoad_self_loop cityMap "A" 1 (by decide)
